import Mathlib

/-!
Verification development for the FridgeChef repository: a Convex + React
application with two asynchronous image-analysis pipelines (fridge-ingredient
analysis in `convex/fridge.ts`, recipe-card scanning in the Convex module
embedded in `src/App.tsx`), per-user record stores (`fridgeAnalyses`,
`scannedRecipes`), ownership-scoped queries and deletion.

The embedding models JavaScript strings as Lean `String`s manipulated through
their underlying `List Char` (ASCII whitespace and ASCII case conversion stand
in for the JS `\s` class and `toLowerCase`, which agree on all inputs appearing
here).  The nondeterministic external world (storage URL resolution, OpenAI
responses) is passed to the task bodies as explicit arguments, and JavaScript
exceptions are modelled by `Except` / dedicated constructors.
-/

/-! ## String primitives (JS `split`, `trim`, `includes`, `toLowerCase`) -/

/-- Split a character list at newline characters, mirroring JS `s.split('\n')`. -/
def splitLinesAux : List Char → List Char → List (List Char)
  | [], acc => [acc.reverse]
  | c :: cs, acc =>
    if c == '\n' then acc.reverse :: splitLinesAux cs []
    else splitLinesAux cs (c :: acc)

/-- JS `s.split('\n')` on the characters of a string. -/
def splitLines (l : List Char) : List (List Char) := splitLinesAux l []

/-- JS `String.prototype.trim` (whitespace stripped from both ends). -/
def trimL (l : List Char) : List Char :=
  ((l.dropWhile Char.isWhitespace).reverse.dropWhile Char.isWhitespace).reverse

/-- JS `String.prototype.toLowerCase` (ASCII). -/
def lowerL (l : List Char) : List Char := l.map Char.toLower

/-- Does `l` start with the pattern given as the first argument? -/
def startsWithL : List Char → List Char → Bool
  | [], _ => true
  | _ :: _, [] => false
  | p :: ps, c :: cs => p == c && startsWithL ps cs

/-- JS `String.prototype.includes`: does the pattern occur as a contiguous
substring of `l`? -/
def containsL : List Char → List Char → Bool
  | [], pat => pat.isEmpty
  | c :: cs, pat => startsWithL pat (c :: cs) || containsL cs pat

/-! ## Shared data model (convex/schema.ts) -/

/-- The `analysisStatus` / `scanStatus` union
`v.union(v.literal("processing"), v.literal("completed"), v.literal("failed"))`. -/
inductive Status
  | processing
  | completed
  | failed
deriving DecidableEq, Repr

/-- A generated recipe object as validated by `updateAnalysis`
(name, ingredients, instructions, cookingTime, difficulty). -/
structure Recipe where
  name : String
  ingredients : List String
  instructions : List String
  cookingTime : String
  difficulty : String
deriving DecidableEq, Repr

/-! ## Fridge pipeline (`processImage` in convex/fridge.ts) -/

/-- The leading-marker strip of the fridge fallback:
`line.replace(/^[-*•]\s*/, '')` — one leading bullet character (`-`, `*`, `•`)
and the whitespace following it are removed; anything else is left alone. -/
def stripBullet (l : List Char) : List Char :=
  match l with
  | [] => []
  | c :: cs =>
    if c == '-' || c == '*' || c == '•' then cs.dropWhile Char.isWhitespace
    else c :: cs

/-- The fridge ingredient fallback used when `JSON.parse` throws:
`content.split('\n').map(line => line.replace(/^[-*•]\s*/, '').trim())
  .filter(item => item.length > 0).slice(0, 10)`. -/
def fridgeIngredientFallback (content : String) : List String :=
  (((splitLines content.data).map (fun l => trimL (stripBullet l))).filter
      (fun l => !l.isEmpty)).map String.mk |>.take 10

/-- The deterministic fallback recipe substituted when the recipe-generation
response fails JSON parsing ("Simple Stir Fry" built from the first four
detected ingredients). -/
def fallbackRecipe (ingredients : List String) : Recipe :=
  { name := "Simple Stir Fry"
    ingredients := ingredients.take 4
    instructions := ["Heat oil in pan", "Add ingredients", "Stir fry for 5-7 minutes",
      "Season and serve"]
    cookingTime := "15 minutes"
    difficulty := "Easy" }

/-- Outcome of `JSON.parse` on the ingredients response content.
`arr` is a successful parse into an array of strings (the only shape that
survives every later step); `invalid` is a successful parse into any other
value, which later throws a `TypeError` (`.join` missing) or fails the
`updateAnalysis` validator; `notJson` means `JSON.parse` threw, with the raw
text that the heuristic fallback then consumes. -/
inductive IngContent
  | arr (xs : List String)
  | invalid
  | notJson (raw : String)
deriving Repr

/-- Outcome of `JSON.parse` on the recipe-generation response content,
analogous to `IngContent` (`invalid` covers any parse result that is not an
array of well-shaped recipe objects and hence fails the validator). -/
inductive RecContent
  | arr (rs : List Recipe)
  | invalid
  | notJson (raw : String)
deriving Repr

/-- One OpenAI chat-completion call as observed by the task: the request itself
may throw (`netErr`), or return a message whose `content` is null/empty
(`ok none`) or a string classified by its JSON parse outcome (`ok (some c)`). -/
inductive InfResult (α : Type)
  | netErr
  | ok (content : Option α)
deriving Repr

/-- The arguments `processImage` passes to the internal mutation
`updateAnalysis` (which patches exactly these three fields). -/
structure UpdateCall where
  ingredients : List String
  recipes : List Recipe
  status : Status
deriving DecidableEq, Repr

/-- The `updateAnalysis` call made by `processImage`'s catch block. -/
def failedUpdate : UpdateCall := ⟨[], [], .failed⟩

/-- The ingredient list obtained from the first inference call, or `none` when
that part of the task throws: null/empty content leaves `ingredients = []`
(parsed as `some []`, which the length check then turns into a failure),
a string-array parse yields the array, a non-array parse throws downstream,
and a parse failure invokes the line-splitting fallback. -/
def extractIngredients : InfResult IngContent → Option (List String)
  | .netErr => none
  | .ok none => some []
  | .ok (some (.arr xs)) => some xs
  | .ok (some .invalid) => none
  | .ok (some (.notJson raw)) => some (fridgeIngredientFallback raw)

/-- The fridge background task `processImage`, as a function of the resolved
image URL and the two inference outcomes, returning the single
`updateAnalysis` call it performs.  Every exception path (unresolvable URL,
request failure, ill-typed parse, empty ingredient list) lands in the catch
block, i.e. `failedUpdate`. -/
def processImage (url : Option String) (ing : InfResult IngContent)
    (rec : InfResult RecContent) : UpdateCall :=
  match url with
  | none => failedUpdate
  | some _ =>
    match extractIngredients ing with
    | none => failedUpdate
    | some xs =>
      if xs = [] then failedUpdate
      else
        match rec with
        | .netErr => failedUpdate
        | .ok none => ⟨xs, [], .completed⟩
        | .ok (some (.arr rs)) => ⟨xs, rs, .completed⟩
        | .ok (some .invalid) => failedUpdate
        | .ok (some (.notJson _)) => ⟨xs, [fallbackRecipe xs], .completed⟩

/-! ## Recipe-scan pipeline (`processRecipeImage` in src/App.tsx) -/

/-- The `scannedRecipes` payload shape manipulated by `processRecipeImage` and
patched by `updateScannedRecipe`. -/
structure RecipeData where
  name : String
  ingredients : List String
  instructions : List String
  cookingTime : Option String
  servings : Option String
  difficulty : Option String
  category : Option String
deriving DecidableEq, Repr

/-- The default skeleton `recipeData` that `processRecipeImage` starts from. -/
def defaultRecipeData : RecipeData :=
  { name := "Scanned Recipe"
    ingredients := []
    instructions := []
    cookingTime := some "Unknown"
    servings := some "Unknown"
    difficulty := some "Medium"
    category := some "Other" }

/-- A well-typed JSON object returned by the scan inference call: each field is
present (`some`) or absent (`none`); present fields override the skeleton via
the spread `{ ...recipeData, ...parsed }`. -/
structure PartialRecipeData where
  name : Option String
  ingredients : Option (List String)
  instructions : Option (List String)
  cookingTime : Option String
  servings : Option String
  difficulty : Option String
  category : Option String
deriving Repr

/-- The object spread `{ ...recipeData, ...parsed }`: fields present in the
parsed object replace the skeleton's fields. -/
def mergeRecipeData (d : RecipeData) (p : PartialRecipeData) : RecipeData :=
  { name := p.name.getD d.name
    ingredients := p.ingredients.getD d.ingredients
    instructions := p.instructions.getD d.instructions
    cookingTime := p.cookingTime <|> d.cookingTime
    servings := p.servings <|> d.servings
    difficulty := p.difficulty <|> d.difficulty
    category := p.category <|> d.category }

/-- The heuristic name-line test of the scan fallback:
`line.toLowerCase().includes('recipe') || line.toLowerCase().includes('title')
 || (!line.includes(':') && line.length > 5 && line.length < 50)`. -/
def isNameLine (line : List Char) : Bool :=
  containsL (lowerL line) "recipe".data || containsL (lowerL line) "title".data ||
    (!line.contains ':' && decide (line.length > 5) && decide (line.length < 50))

/-- The name cleanup `nameMatch.replace(/recipe:?/i, '')`: remove the first
case-insensitive occurrence of `recipe`, together with a directly following
colon when present. -/
def stripRecipeTag : List Char → List Char
  | [] => []
  | c :: cs =>
    if lowerL (List.take 6 (c :: cs)) == "recipe".data then
      match List.drop 6 (c :: cs) with
      | ':' :: rest => rest
      | rest => rest
    else c :: stripRecipeTag cs

/-- The heuristic ingredient-line test of the scan fallback:
`/^[\d•\-*]/.test(line.trim()) || line.toLowerCase().includes('cup') ||
 line.toLowerCase().includes('tbsp') || line.toLowerCase().includes('tsp')`.
The leading-marker test is on the trimmed line; the unit-keyword tests are
case-insensitive. -/
def isIngredientLine (line : List Char) : Bool :=
  (match trimL line with
   | [] => false
   | c :: _ => c.isDigit || c == '•' || c == '-' || c == '*') ||
  containsL (lowerL line) "cup".data || containsL (lowerL line) "tbsp".data ||
  containsL (lowerL line) "tsp".data

/-- The marker strip of matched ingredient lines:
`line.replace(/^[\d•\-*.\s]+/, '').trim()` — the maximal leading run of
digits, bullets, dots and whitespace is removed, then the result is trimmed. -/
def stripIngMarkers (line : List Char) : List Char :=
  trimL (line.dropWhile (fun c =>
    c.isDigit || c == '•' || c == '-' || c == '*' || c == '.' || c.isWhitespace))

/-- The heuristic instruction-line test of the scan fallback:
`line.length > 20 && (line.includes('cook') || line.includes('add') ||
 line.includes('mix') || line.includes('heat') || line.includes('bake') ||
 line.includes('stir'))`.  Note the verb tests are case-sensitive. -/
def isInstructionLine (line : List Char) : Bool :=
  decide (line.length > 20) &&
    (containsL line "cook".data || containsL line "add".data ||
     containsL line "mix".data || containsL line "heat".data ||
     containsL line "bake".data || containsL line "stir".data)

/-- The non-blank lines of the raw response text:
`content.split('\n').filter(line => line.trim())`. -/
def scanLinesL (raw : String) : List (List Char) :=
  (splitLines raw.data).filter (fun l => !(trimL l).isEmpty)

/-- The heuristic text-extraction branch of `processRecipeImage`, run when
`JSON.parse` throws on the response content.  The source mutates the skeleton
`recipeData` field by field (name when a name line is found, ingredients when
at least one ingredient line matched, instructions when at least one
instruction line matched); since each conditional assignment touches a
distinct field, the result is written here field-wise. -/
def scanFallback (raw : String) : RecipeData :=
  let lines := scanLinesL raw
  let nameMatch := lines.find? isNameLine
  let ingredients := (lines.filter isIngredientLine).map
    (fun l => String.mk (stripIngMarkers l))
  let instructions := (lines.filter isInstructionLine).map String.mk
  { name := match nameMatch with
      | some l => String.mk (trimL (stripRecipeTag l))
      | none => defaultRecipeData.name
    ingredients := if ingredients.length > 0 then ingredients.take 15
      else defaultRecipeData.ingredients
    instructions := if instructions.length > 0 then instructions.take 10
      else defaultRecipeData.instructions
    cookingTime := defaultRecipeData.cookingTime
    servings := defaultRecipeData.servings
    difficulty := defaultRecipeData.difficulty
    category := defaultRecipeData.category }

/-- Outcome of `JSON.parse` on the scan response content: a well-typed object
(`json`), a parse success whose ill-typed fields later throw or fail the
`updateScannedRecipe` validator (`invalid`), or a parse failure handled by the
heuristic fallback (`notJson`). -/
inductive ScanContent
  | json (p : PartialRecipeData)
  | invalid
  | notJson (raw : String)
deriving Repr

/-- The arguments `processRecipeImage` passes to `updateScannedRecipe`. -/
structure ScanUpdate where
  recipeData : RecipeData
  status : Status
deriving DecidableEq, Repr

/-- The `updateScannedRecipe` call made by `processRecipeImage`'s catch block:
name "Scan Failed", empty lists, optional fields absent, status failed. -/
def failedScanUpdate : ScanUpdate :=
  ⟨⟨"Scan Failed", [], [], none, none, none, none⟩, .failed⟩

/-- The recipe-scan background task `processRecipeImage`, as a function of the
resolved image URL and the inference outcome, returning the single
`updateScannedRecipe` call it performs.  Null/empty content leaves the default
skeleton, whose empty lists then trigger the "No recipe information" throw;
every exception path lands in the catch block, i.e. `failedScanUpdate`. -/
def processRecipeImage (url : Option String) (resp : InfResult ScanContent) :
    ScanUpdate :=
  match url with
  | none => failedScanUpdate
  | some _ =>
    match resp with
    | .netErr => failedScanUpdate
    | .ok none => failedScanUpdate
    | .ok (some .invalid) => failedScanUpdate
    | .ok (some (.json p)) =>
      let d := mergeRecipeData defaultRecipeData p
      if d.ingredients = [] ∧ d.instructions = [] then failedScanUpdate
      else ⟨d, .completed⟩
    | .ok (some (.notJson raw)) =>
      let d := scanFallback raw
      if d.ingredients = [] ∧ d.instructions = [] then failedScanUpdate
      else ⟨d, .completed⟩

/-! ## Record stores (convex/schema.ts) and point operations

Document ids are modelled as `Nat` (Convex ids are globally unique; the model
allocates them from a monotone counter).  A table is a list of id/record pairs
kept in insertion order, which is also `_creationTime` order, so the
`.order("desc")` of the list queries is reversal.  `findRec` is `ctx.db.get`,
`patchRec` is `ctx.db.patch` (a no-op on an absent id at this level), and
deletion is key filtering. -/

/-- A `fridgeAnalyses` document (minus its id). -/
structure FridgeRecord where
  userId : Nat
  imageId : Nat
  ingredients : List String
  recipes : List Recipe
  analysisStatus : Status
deriving DecidableEq, Repr

/-- A `scannedRecipes` document (minus its id). -/
structure ScanRecord where
  userId : Nat
  imageId : Nat
  name : String
  ingredients : List String
  instructions : List String
  cookingTime : Option String
  servings : Option String
  difficulty : Option String
  category : Option String
  scanStatus : Status
deriving DecidableEq, Repr

/-- Point lookup `ctx.db.get(id)`: first record stored under `id`. -/
def findRec (id : Nat) : List (Nat × α) → Option α
  | [] => none
  | (k, r) :: rest => if k = id then some r else findRec id rest

/-- Partial update `ctx.db.patch(id, fields)`, with the patched fields given
as a record transformer; entries stored under other ids are untouched. -/
def patchRec (id : Nat) (f : α → α) : List (Nat × α) → List (Nat × α)
  | [] => []
  | (k, r) :: rest =>
    if k = id then (k, f r) :: patchRec id f rest else (k, r) :: patchRec id f rest

/-- Deletion `ctx.db.delete(id)`: every entry stored under `id` is removed. -/
def removeRec (id : Nat) : List (Nat × α) → List (Nat × α)
  | [] => []
  | (k, r) :: rest => if k = id then removeRec id rest else (k, r) :: removeRec id rest

/-! ## Public entry points

Each Convex mutation/query handler is a function of the current identity
(`getAuthUserId`, `none` when unauthenticated) and its arguments.  Mutations
return `Except String _` — `.error` is a thrown `Error`, which aborts the
transaction leaving the store unchanged; queries also return `Except` so that
"returns null" and "throws" are distinguishable results.  `resolve` stands for
`ctx.storage.getUrl`, evaluated at read time. -/

/-- The `generateUploadUrl` mutation: authentication check, then delegation to
`ctx.storage.generateUploadUrl()` (modelled as opaque success). -/
def generateUploadUrl (u : Option Nat) : Except String Unit :=
  match u with
  | none => .error "Not authenticated"
  | some _ => .ok ()

/-- System state: both tables, the pending background tasks scheduled by
`ctx.scheduler.runAfter(0, ...)` (by record id), and the id allocator. -/
structure SysState where
  fridge : List (Nat × FridgeRecord)
  scans : List (Nat × ScanRecord)
  fridgeTasks : List Nat
  scanTasks : List Nat
  nextId : Nat
deriving Repr

/-- The empty initial state. -/
def initState : SysState := ⟨[], [], [], [], 0⟩

/-- Effect of a successful `analyzeImage`: insert a fresh `fridgeAnalyses`
record with empty lists and `analysisStatus: "processing"`, and schedule one
`processImage` task against the new id. -/
def insertFridge (uid sid : Nat) (s : SysState) : SysState :=
  { s with
    fridge := s.fridge ++ [(s.nextId, ⟨uid, sid, [], [], .processing⟩)]
    fridgeTasks := s.fridgeTasks ++ [s.nextId]
    nextId := s.nextId + 1 }

/-- Effect of a successful `scanRecipe`: insert a fresh `scannedRecipes`
record with empty name and lists and `scanStatus: "processing"`, and schedule
one `processRecipeImage` task against the new id. -/
def insertScan (uid sid : Nat) (s : SysState) : SysState :=
  { s with
    scans := s.scans ++ [(s.nextId, ⟨uid, sid, "", [], [], none, none, none, none, .processing⟩)]
    scanTasks := s.scanTasks ++ [s.nextId]
    nextId := s.nextId + 1 }

/-- The `analyzeImage` mutation: reject when unauthenticated, otherwise insert
and schedule, returning the new record id. -/
def analyzeImage (u : Option Nat) (sid : Nat) (s : SysState) :
    Except String (Nat × SysState) :=
  match u with
  | none => .error "Not authenticated"
  | some uid => .ok (s.nextId, insertFridge uid sid s)

/-- The `scanRecipe` mutation: reject when unauthenticated, otherwise insert
and schedule, returning the new record id. -/
def scanRecipe (u : Option Nat) (sid : Nat) (s : SysState) :
    Except String (Nat × SysState) :=
  match u with
  | none => .error "Not authenticated"
  | some uid => .ok (s.nextId, insertScan uid sid s)

/-- The `updateAnalysis` internal mutation applied to the state: patch the
three payload fields of the target record and consume the pending task. -/
def setFridgeFields (c : UpdateCall) (r : FridgeRecord) : FridgeRecord :=
  { r with ingredients := c.ingredients, recipes := c.recipes, analysisStatus := c.status }

/-- Running the fridge background task to completion: its single
`updateAnalysis` call, plus removal of the task from the pending set. -/
def applyFridgeUpdate (id : Nat) (c : UpdateCall) (s : SysState) : SysState :=
  { s with
    fridge := patchRec id (setFridgeFields c) s.fridge
    fridgeTasks := s.fridgeTasks.filter (fun j => j != id) }

/-- The `updateScannedRecipe` internal mutation applied to one record: patch
the payload fields (optional fields included) and the status. -/
def setScanFields (c : ScanUpdate) (r : ScanRecord) : ScanRecord :=
  { r with
    name := c.recipeData.name
    ingredients := c.recipeData.ingredients
    instructions := c.recipeData.instructions
    cookingTime := c.recipeData.cookingTime
    servings := c.recipeData.servings
    difficulty := c.recipeData.difficulty
    category := c.recipeData.category
    scanStatus := c.status }

/-- Running the recipe-scan background task to completion. -/
def applyScanUpdate (id : Nat) (c : ScanUpdate) (s : SysState) : SysState :=
  { s with
    scans := patchRec id (setScanFields c) s.scans
    scanTasks := s.scanTasks.filter (fun j => j != id) }

/-- The `getAnalysis` query: `null` when unauthenticated, absent, or owned by
someone else; otherwise the record annotated with a freshly resolved image
URL. -/
def getAnalysis (u : Option Nat) (id : Nat) (db : List (Nat × FridgeRecord))
    (resolve : Nat → Option String) :
    Except String (Option (FridgeRecord × Option String)) :=
  match u with
  | none => .ok none
  | some uid =>
    match findRec id db with
    | none => .ok none
    | some r => if r.userId = uid then .ok (some (r, resolve r.imageId)) else .ok none

/-- The `getUserAnalyses` query: the caller's records via the `by_user` index,
newest first, at most 20, each annotated with a freshly resolved image URL. -/
def getUserAnalyses (u : Option Nat) (db : List (Nat × FridgeRecord))
    (resolve : Nat → Option String) :
    Except String (List ((Nat × FridgeRecord) × Option String)) :=
  match u with
  | none => .ok []
  | some uid =>
    .ok ((((db.filter (fun p => p.2.userId == uid)).reverse.take 20).map
      (fun p => (p, resolve p.2.imageId))))

/-- The `getScannedRecipe` query (same shape as `getAnalysis`). -/
def getScannedRecipe (u : Option Nat) (id : Nat) (db : List (Nat × ScanRecord))
    (resolve : Nat → Option String) :
    Except String (Option (ScanRecord × Option String)) :=
  match u with
  | none => .ok none
  | some uid =>
    match findRec id db with
    | none => .ok none
    | some r => if r.userId = uid then .ok (some (r, resolve r.imageId)) else .ok none

/-- The `getUserRecipes` query (same shape as `getUserAnalyses`). -/
def getUserRecipes (u : Option Nat) (db : List (Nat × ScanRecord))
    (resolve : Nat → Option String) :
    Except String (List ((Nat × ScanRecord) × Option String)) :=
  match u with
  | none => .ok []
  | some uid =>
    .ok ((((db.filter (fun p => p.2.userId == uid)).reverse.take 20).map
      (fun p => (p, resolve p.2.imageId))))

/-- The `deleteRecipe` mutation: authentication check, then ownership check
(absent and non-owned ids fail with the same error, mutating nothing), then
permanent removal. -/
def deleteRecipe (u : Option Nat) (id : Nat) (db : List (Nat × ScanRecord)) :
    Except String (List (Nat × ScanRecord)) :=
  match u with
  | none => .error "Not authenticated"
  | some uid =>
    match findRec id db with
    | none => .error "Recipe not found or not authorized"
    | some r =>
      if r.userId = uid then .ok (removeRec id db)
      else .error "Recipe not found or not authorized"

/-! ## The operational step relation

One step is one state-changing operation of the system: a successful
submission (`analyzeImage` / `scanRecipe`), one background task running to
completion against a pending record (its parse outcomes chosen by the
environment), or a successful `deleteRecipe`.  Queries are read-only and
failed mutations abort without effect, so neither changes the state. -/

/-- Effect of a successful `deleteRecipe` on the state. -/
def removeScan (id : Nat) (s : SysState) : SysState :=
  { s with scans := removeRec id s.scans }

inductive Step : SysState → SysState → Prop
  | analyze (uid sid : Nat) (s : SysState) :
      Step s (insertFridge uid sid s)
  | scan (uid sid : Nat) (s : SysState) :
      Step s (insertScan uid sid s)
  | runFridge (id : Nat) (url : Option String) (ing : InfResult IngContent)
      (rec : InfResult RecContent) (s : SysState) (h : id ∈ s.fridgeTasks) :
      Step s (applyFridgeUpdate id (processImage url ing rec) s)
  | runScan (id : Nat) (url : Option String) (resp : InfResult ScanContent)
      (s : SysState) (h : id ∈ s.scanTasks) :
      Step s (applyScanUpdate id (processRecipeImage url resp) s)
  | delete (uid id : Nat) (r : ScanRecord) (s : SysState)
      (h : findRec id s.scans = some r) (ho : r.userId = uid) :
      Step s (removeScan id s)

/-- States reachable from the empty initial state. -/
def Reachable (s : SysState) : Prop := Relation.ReflTransGen Step initState s

/-! ## Store lemmas -/

theorem findRec_append_left {α : Type} {id : Nat} {l l' : List (Nat × α)} {r : α}
    (h : findRec id l = some r) : findRec id (l ++ l') = some r := by
  induction l with
  | nil => simp [findRec] at h
  | cons p rest ih =>
    obtain ⟨k, x⟩ := p
    by_cases hk : k = id
    · simp only [List.cons_append, findRec, if_pos hk] at h ⊢
      exact h
    · simp only [List.cons_append, findRec, if_neg hk] at h ⊢
      exact ih h

theorem findRec_append_none {α : Type} {id : Nat} {l l' : List (Nat × α)}
    (h : findRec id l = none) : findRec id (l ++ l') = findRec id l' := by
  induction l with
  | nil => simp
  | cons p rest ih =>
    obtain ⟨k, x⟩ := p
    by_cases hk : k = id
    · simp [findRec, hk] at h
    · simp only [List.cons_append, findRec, if_neg hk] at h ⊢
      exact ih h

theorem findRec_mem {α : Type} {id : Nat} {l : List (Nat × α)} {r : α}
    (h : findRec id l = some r) : (id, r) ∈ l := by
  induction l with
  | nil => simp [findRec] at h
  | cons p rest ih =>
    obtain ⟨k, x⟩ := p
    by_cases hk : k = id
    · simp only [findRec, if_pos hk, Option.some.injEq] at h
      subst hk; subst h; exact List.mem_cons_self _ _
    · simp only [findRec, if_neg hk] at h
      exact List.mem_cons_of_mem _ (ih h)

theorem findRec_patch_self {α : Type} {id : Nat} {f : α → α} {l : List (Nat × α)} :
    findRec id (patchRec id f l) = (findRec id l).map f := by
  induction l with
  | nil => rfl
  | cons p rest ih =>
    obtain ⟨k, x⟩ := p
    by_cases hk : k = id
    · rw [patchRec, if_pos hk]
      simp only [findRec]
      rw [if_pos hk, if_pos hk]
      rfl
    · rw [patchRec, if_neg hk]
      simp only [findRec]
      rw [if_neg hk, if_neg hk]
      exact ih

theorem findRec_patch_ne {α : Type} {id j : Nat} {f : α → α} {l : List (Nat × α)}
    (h : id ≠ j) : findRec id (patchRec j f l) = findRec id l := by
  induction l with
  | nil => rfl
  | cons p rest ih =>
    obtain ⟨k, x⟩ := p
    by_cases hkj : k = j
    · have hki : ¬k = id := by rw [hkj]; exact fun hh => h hh.symm
      rw [patchRec, if_pos hkj]
      simp only [findRec]
      rw [if_neg hki, if_neg hki]
      exact ih
    · rw [patchRec, if_neg hkj]
      simp only [findRec]
      by_cases hki : k = id
      · rw [if_pos hki, if_pos hki]
      · rw [if_neg hki, if_neg hki]
        exact ih

theorem patchRec_mem_key {α : Type} {j : Nat} {f : α → α} {l : List (Nat × α)}
    {p : Nat × α} (h : p ∈ patchRec j f l) : ∃ x, (p.1, x) ∈ l := by
  induction l with
  | nil => simp [patchRec] at h
  | cons q rest ih =>
    obtain ⟨k, x⟩ := q
    rw [patchRec] at h
    by_cases hk : k = j
    · rw [if_pos hk] at h
      rcases List.mem_cons.mp h with h | h
      · refine ⟨x, ?_⟩
        rw [h]
        exact List.mem_cons_self _ _
      · obtain ⟨y, hy⟩ := ih h
        exact ⟨y, List.mem_cons_of_mem _ hy⟩
    · rw [if_neg hk] at h
      rcases List.mem_cons.mp h with h | h
      · refine ⟨x, ?_⟩
        rw [h]
        exact List.mem_cons_self _ _
      · obtain ⟨y, hy⟩ := ih h
        exact ⟨y, List.mem_cons_of_mem _ hy⟩

theorem findRec_remove_self {α : Type} {id : Nat} {l : List (Nat × α)} :
    findRec id (removeRec id l) = none := by
  induction l with
  | nil => rfl
  | cons p rest ih =>
    obtain ⟨k, x⟩ := p
    by_cases hk : k = id
    · rw [removeRec, if_pos hk]
      exact ih
    · rw [removeRec, if_neg hk]
      simp only [findRec]
      rw [if_neg hk]
      exact ih

theorem findRec_remove_ne {α : Type} {id j : Nat} {l : List (Nat × α)}
    (h : id ≠ j) : findRec id (removeRec j l) = findRec id l := by
  induction l with
  | nil => rfl
  | cons p rest ih =>
    obtain ⟨k, x⟩ := p
    by_cases hkj : k = j
    · have hki : ¬k = id := by rw [hkj]; exact fun hh => h hh.symm
      rw [removeRec, if_pos hkj]
      simp only [findRec]
      rw [if_neg hki]
      exact ih
    · rw [removeRec, if_neg hkj]
      simp only [findRec]
      by_cases hki : k = id
      · rw [if_pos hki, if_pos hki]
      · rw [if_neg hki, if_neg hki]
        exact ih

theorem removeRec_subset {α : Type} {j : Nat} {l : List (Nat × α)} {p : Nat × α}
    (h : p ∈ removeRec j l) : p ∈ l := by
  induction l with
  | nil => simp [removeRec] at h
  | cons q rest ih =>
    obtain ⟨k, x⟩ := q
    rw [removeRec] at h
    by_cases hk : k = j
    · rw [if_pos hk] at h
      exact List.mem_cons_of_mem _ (ih h)
    · rw [if_neg hk] at h
      rcases List.mem_cons.mp h with h | h
      · rw [h]; exact List.mem_cons_self _ _
      · exact List.mem_cons_of_mem _ (ih h)

theorem findRec_patch_none {α : Type} {id j : Nat} {f : α → α} {l : List (Nat × α)}
    (h : findRec id l = none) : findRec id (patchRec j f l) = none := by
  by_cases hj : id = j
  · subst hj
    rw [findRec_patch_self, h]
    rfl
  · rw [findRec_patch_ne hj, h]

theorem findRec_remove_none {α : Type} {id j : Nat} {l : List (Nat × α)}
    (h : findRec id l = none) : findRec id (removeRec j l) = none := by
  by_cases hj : id = j
  · subst hj
    exact findRec_remove_self
  · rw [findRec_remove_ne hj, h]

/-! ## Pipeline status lemmas -/

theorem processImage_status (url : Option String) (ing : InfResult IngContent)
    (rec : InfResult RecContent) :
    (processImage url ing rec).status = Status.completed ∨
      (processImage url ing rec).status = Status.failed := by
  unfold processImage
  split
  · exact Or.inr rfl
  · split
    · exact Or.inr rfl
    · split
      · exact Or.inr rfl
      · split
        · exact Or.inr rfl
        · exact Or.inl rfl
        · exact Or.inl rfl
        · exact Or.inr rfl
        · exact Or.inl rfl

theorem processRecipeImage_status (url : Option String) (resp : InfResult ScanContent) :
    (processRecipeImage url resp).status = Status.completed ∨
      (processRecipeImage url resp).status = Status.failed := by
  unfold processRecipeImage
  split
  · exact Or.inr rfl
  · split
    · exact Or.inr rfl
    · exact Or.inr rfl
    · exact Or.inr rfl
    · dsimp only
      split
      · exact Or.inr rfl
      · exact Or.inl rfl
    · dsimp only
      split
      · exact Or.inr rfl
      · exact Or.inl rfl

/-! ## The lifecycle invariant

`SysInv` is the inductive invariant carried along every execution: allocated ids
stay below the allocator, and a record whose status is terminal has no pending
background task — the only operation that can rewrite its fields. -/

structure SysInv (s : SysState) : Prop where
  fbound : ∀ p ∈ s.fridge, p.1 < s.nextId
  sbound : ∀ p ∈ s.scans, p.1 < s.nextId
  ftbound : ∀ i ∈ s.fridgeTasks, i < s.nextId
  stbound : ∀ i ∈ s.scanTasks, i < s.nextId
  fterm : ∀ id r, findRec id s.fridge = some r →
    r.analysisStatus ≠ Status.processing → id ∉ s.fridgeTasks
  sterm : ∀ id r, findRec id s.scans = some r →
    r.scanStatus ≠ Status.processing → id ∉ s.scanTasks

theorem inv_init : SysInv initState := by
  refine ⟨?_, ?_, ?_, ?_, ?_, ?_⟩ <;> intro id r <;> simp [initState, findRec] at *

theorem not_mem_filter_bne_self {l : List Nat} {id : Nat} :
    id ∉ l.filter (fun j => j != id) := by
  intro hmem
  have := (List.mem_filter.mp hmem).2
  simp at this

theorem inv_step {s s' : SysState} (hst : Step s s') (hinv : SysInv s) : SysInv s' := by
  cases hst with
  | analyze uid sid s =>
    refine ⟨?_, ?_, ?_, ?_, ?_, ?_⟩
    · intro p hp
      rcases List.mem_append.mp hp with hp | hp
      · exact Nat.lt_succ_of_lt (hinv.fbound p hp)
      · rcases List.mem_singleton.mp hp with rfl
        exact Nat.lt_succ_self _
    · intro p hp
      exact Nat.lt_succ_of_lt (hinv.sbound p hp)
    · intro i hi
      rcases List.mem_append.mp hi with hi | hi
      · exact Nat.lt_succ_of_lt (hinv.ftbound i hi)
      · rcases List.mem_singleton.mp hi with rfl
        exact Nat.lt_succ_self _
    · intro i hi
      exact Nat.lt_succ_of_lt (hinv.stbound i hi)
    · intro id r hfind hterm hmem
      simp only [insertFridge] at hfind hmem
      rcases hl : findRec id s.fridge with _ | r'
      · have h1 := @findRec_append_none FridgeRecord id s.fridge
          [(s.nextId, ⟨uid, sid, [], [], .processing⟩)] hl
        rw [h1] at hfind
        by_cases hn : s.nextId = id
        · simp only [findRec, if_pos hn, Option.some.injEq] at hfind
          rw [← hfind] at hterm
          exact hterm rfl
        · simp [findRec, hn] at hfind
      · have h1 := @findRec_append_left FridgeRecord id s.fridge
          [(s.nextId, ⟨uid, sid, [], [], .processing⟩)] _ hl
        rw [h1] at hfind
        injection hfind with hfind
        subst hfind
        have hlt : id < s.nextId := hinv.fbound _ (findRec_mem hl)
        rcases List.mem_append.mp hmem with hmem | hmem
        · exact hinv.fterm id _ hl hterm hmem
        · rcases List.mem_singleton.mp hmem with rfl
          exact Nat.lt_irrefl _ hlt
    · intro id r hfind hterm
      exact hinv.sterm id r hfind hterm
  | scan uid sid s =>
    refine ⟨?_, ?_, ?_, ?_, ?_, ?_⟩
    · intro p hp
      exact Nat.lt_succ_of_lt (hinv.fbound p hp)
    · intro p hp
      rcases List.mem_append.mp hp with hp | hp
      · exact Nat.lt_succ_of_lt (hinv.sbound p hp)
      · rcases List.mem_singleton.mp hp with rfl
        exact Nat.lt_succ_self _
    · intro i hi
      exact Nat.lt_succ_of_lt (hinv.ftbound i hi)
    · intro i hi
      rcases List.mem_append.mp hi with hi | hi
      · exact Nat.lt_succ_of_lt (hinv.stbound i hi)
      · rcases List.mem_singleton.mp hi with rfl
        exact Nat.lt_succ_self _
    · intro id r hfind hterm
      exact hinv.fterm id r hfind hterm
    · intro id r hfind hterm hmem
      simp only [insertScan] at hfind hmem
      rcases hl : findRec id s.scans with _ | r'
      · have h1 := @findRec_append_none ScanRecord id s.scans
          [(s.nextId, ⟨uid, sid, "", [], [], none, none, none, none, .processing⟩)] hl
        rw [h1] at hfind
        by_cases hn : s.nextId = id
        · simp only [findRec, if_pos hn, Option.some.injEq] at hfind
          rw [← hfind] at hterm
          exact hterm rfl
        · simp [findRec, hn] at hfind
      · have h1 := @findRec_append_left ScanRecord id s.scans
          [(s.nextId, ⟨uid, sid, "", [], [], none, none, none, none, .processing⟩)] _ hl
        rw [h1] at hfind
        injection hfind with hfind
        subst hfind
        have hlt : id < s.nextId := hinv.sbound _ (findRec_mem hl)
        rcases List.mem_append.mp hmem with hmem | hmem
        · exact hinv.sterm id _ hl hterm hmem
        · rcases List.mem_singleton.mp hmem with rfl
          exact Nat.lt_irrefl _ hlt
  | runFridge id' url ing rec s h =>
    refine ⟨?_, ?_, ?_, ?_, ?_, ?_⟩
    · intro p hp
      obtain ⟨x, hx⟩ := patchRec_mem_key hp
      exact hinv.fbound (p.1, x) hx
    · intro p hp
      exact hinv.sbound p hp
    · intro i hi
      exact hinv.ftbound i (List.mem_of_mem_filter hi)
    · intro i hi
      exact hinv.stbound i hi
    · intro id r hfind hterm hmem
      simp only [applyFridgeUpdate] at hfind hmem
      by_cases hid : id = id'
      · subst hid
        exact not_mem_filter_bne_self hmem
      · rw [findRec_patch_ne hid] at hfind
        exact hinv.fterm id r hfind hterm (List.mem_of_mem_filter hmem)
    · intro id r hfind hterm
      exact hinv.sterm id r hfind hterm
  | runScan id' url resp s h =>
    refine ⟨?_, ?_, ?_, ?_, ?_, ?_⟩
    · intro p hp
      exact hinv.fbound p hp
    · intro p hp
      obtain ⟨x, hx⟩ := patchRec_mem_key hp
      exact hinv.sbound (p.1, x) hx
    · intro i hi
      exact hinv.ftbound i hi
    · intro i hi
      exact hinv.stbound i (List.mem_of_mem_filter hi)
    · intro id r hfind hterm
      exact hinv.fterm id r hfind hterm
    · intro id r hfind hterm hmem
      simp only [applyScanUpdate] at hfind hmem
      by_cases hid : id = id'
      · subst hid
        exact not_mem_filter_bne_self hmem
      · rw [findRec_patch_ne hid] at hfind
        exact hinv.sterm id r hfind hterm (List.mem_of_mem_filter hmem)
  | delete uid id' r0 s hfind0 how =>
    refine ⟨?_, ?_, ?_, ?_, ?_, ?_⟩
    · intro p hp
      exact hinv.fbound p hp
    · intro p hp
      exact hinv.sbound p (removeRec_subset hp)
    · intro i hi
      exact hinv.ftbound i hi
    · intro i hi
      exact hinv.stbound i hi
    · intro id r hfind hterm
      exact hinv.fterm id r hfind hterm
    · intro id r hfind hterm
      simp only [removeScan] at hfind
      by_cases hid : id = id'
      · subst hid
        rw [findRec_remove_self] at hfind
        exact absurd hfind (by simp)
      · rw [findRec_remove_ne hid] at hfind
        exact hinv.sterm id r hfind hterm

theorem inv_reachable {s : SysState} (h : Reachable s) : SysInv s := by
  induction h with
  | refl => exact inv_init
  | tail hab hbc ih => exact inv_step hbc ih

/-! ## Stability of terminal records -/

theorem step_nextId_le {s s' : SysState} (hst : Step s s') : s.nextId ≤ s'.nextId := by
  cases hst with
  | analyze uid sid s => exact Nat.le_succ _
  | scan uid sid s => exact Nat.le_succ _
  | runFridge id' url ing rec s h => exact le_refl _
  | runScan id' url resp s h => exact le_refl _
  | delete uid id' r0 s hfind0 how => exact le_refl _

theorem step_fridge_stable {s s' : SysState} (hst : Step s s') (hinv : SysInv s)
    {id : Nat} {r : FridgeRecord} (hfind : findRec id s.fridge = some r)
    (hterm : r.analysisStatus ≠ Status.processing) :
    findRec id s'.fridge = some r := by
  cases hst with
  | analyze uid sid s =>
    simp only [insertFridge]
    exact findRec_append_left hfind
  | scan uid sid s => exact hfind
  | runFridge id' url ing rec s h =>
    simp only [applyFridgeUpdate]
    by_cases hid : id = id'
    · subst hid
      exact absurd h (hinv.fterm id r hfind hterm)
    · rw [findRec_patch_ne hid]
      exact hfind
  | runScan id' url resp s h => exact hfind
  | delete uid id' r0 s hfind0 how => exact hfind

theorem step_scan_stable {s s' : SysState} (hst : Step s s') (hinv : SysInv s)
    {id : Nat} {r : ScanRecord} (hfind : findRec id s.scans = some r)
    (hterm : r.scanStatus ≠ Status.processing) :
    findRec id s'.scans = some r ∨ findRec id s'.scans = none := by
  cases hst with
  | analyze uid sid s => exact Or.inl hfind
  | scan uid sid s =>
    simp only [insertScan]
    exact Or.inl (findRec_append_left hfind)
  | runFridge id' url ing rec s h => exact Or.inl hfind
  | runScan id' url resp s h =>
    simp only [applyScanUpdate]
    by_cases hid : id = id'
    · subst hid
      exact absurd h (hinv.sterm id r hfind hterm)
    · rw [findRec_patch_ne hid]
      exact Or.inl hfind
  | delete uid id' r0 s hfind0 how =>
    simp only [removeScan]
    by_cases hid : id = id'
    · subst hid
      exact Or.inr findRec_remove_self
    · rw [findRec_remove_ne hid]
      exact Or.inl hfind

theorem step_scan_none_stable {s s' : SysState} (hst : Step s s') {id : Nat}
    (hid : id < s.nextId) (hnone : findRec id s.scans = none) :
    findRec id s'.scans = none := by
  cases hst with
  | analyze uid sid s => exact hnone
  | scan uid sid s =>
    simp only [insertScan]
    rw [findRec_append_none hnone]
    have hne : ¬s.nextId = id := fun hh => Nat.lt_irrefl _ (hh ▸ hid)
    simp [findRec, hne]
  | runFridge id' url ing rec s h => exact hnone
  | runScan id' url resp s h =>
    simp only [applyScanUpdate]
    exact findRec_patch_none hnone
  | delete uid id' r0 s hfind0 how =>
    simp only [removeScan]
    exact findRec_remove_none hnone

/-- Multi-step stability, carrying the invariant along the execution. -/
theorem steps_stable {s s' : SysState} (hsteps : Relation.ReflTransGen Step s s')
    (hinv : SysInv s) :
    SysInv s' ∧ s.nextId ≤ s'.nextId ∧
    (∀ id r, findRec id s.fridge = some r → r.analysisStatus ≠ Status.processing →
      findRec id s'.fridge = some r) ∧
    (∀ id r, id < s.nextId → findRec id s.scans = some r →
      r.scanStatus ≠ Status.processing →
      findRec id s'.scans = some r ∨ findRec id s'.scans = none) := by
  induction hsteps with
  | refl =>
    exact ⟨hinv, le_refl _, fun id r h _ => h, fun id r _ h _ => Or.inl h⟩
  | tail hab hbc ih =>
    obtain ⟨invb, hle, hf, hs⟩ := ih
    refine ⟨inv_step hbc invb, le_trans hle (step_nextId_le hbc), ?_, ?_⟩
    · intro id r h hterm
      exact step_fridge_stable hbc invb (hf id r h hterm) hterm
    · intro id r hid h hterm
      rcases hs id r hid h hterm with h' | h'
      · exact step_scan_stable hbc invb h' hterm
      · exact Or.inr (step_scan_none_stable hbc (lt_of_lt_of_le hid hle) h')

/-! ## Shape of a single transition -/

theorem step_shape {s s₁ : SysState} (hst : Step s s₁) (hinv : SysInv s) :
    (∀ id r r', findRec id s.fridge = some r → findRec id s₁.fridge = some r' →
      r' ≠ r → r.analysisStatus = Status.processing ∧
        (r'.analysisStatus = Status.completed ∨ r'.analysisStatus = Status.failed)) ∧
    (∀ id r r', findRec id s.scans = some r → findRec id s₁.scans = some r' →
      r' ≠ r → r.scanStatus = Status.processing ∧
        (r'.scanStatus = Status.completed ∨ r'.scanStatus = Status.failed)) := by
  cases hst with
  | analyze uid sid s =>
    constructor
    · intro id r r' h h' hne
      simp only [insertFridge] at h'
      rw [findRec_append_left h] at h'
      injection h' with h'
      exact absurd h'.symm hne
    · intro id r r' h h' hne
      simp only [insertFridge] at h'
      rw [h] at h'
      injection h' with h'
      exact absurd h'.symm hne
  | scan uid sid s =>
    constructor
    · intro id r r' h h' hne
      simp only [insertScan] at h'
      rw [h] at h'
      injection h' with h'
      exact absurd h'.symm hne
    · intro id r r' h h' hne
      simp only [insertScan] at h'
      rw [findRec_append_left h] at h'
      injection h' with h'
      exact absurd h'.symm hne
  | runFridge id' url ing rec s h =>
    constructor
    · intro id r r' hfind hfind' hne
      simp only [applyFridgeUpdate] at hfind'
      by_cases hid : id = id'
      · subst hid
        rw [findRec_patch_self, hfind] at hfind'
        injection hfind' with hfind'
        constructor
        · by_cases hp : r.analysisStatus = Status.processing
          · exact hp
          · exact absurd h (hinv.fterm id r hfind hp)
        · rw [← hfind']
          exact processImage_status url ing rec
      · rw [findRec_patch_ne hid, hfind] at hfind'
        injection hfind' with hfind'
        exact absurd hfind'.symm hne
    · intro id r r' hfind hfind' hne
      simp only [applyFridgeUpdate] at hfind'
      rw [hfind] at hfind'
      injection hfind' with hfind'
      exact absurd hfind'.symm hne
  | runScan id' url resp s h =>
    constructor
    · intro id r r' hfind hfind' hne
      simp only [applyScanUpdate] at hfind'
      rw [hfind] at hfind'
      injection hfind' with hfind'
      exact absurd hfind'.symm hne
    · intro id r r' hfind hfind' hne
      simp only [applyScanUpdate] at hfind'
      by_cases hid : id = id'
      · subst hid
        rw [findRec_patch_self, hfind] at hfind'
        injection hfind' with hfind'
        constructor
        · by_cases hp : r.scanStatus = Status.processing
          · exact hp
          · exact absurd h (hinv.sterm id r hfind hp)
        · rw [← hfind']
          exact processRecipeImage_status url resp
      · rw [findRec_patch_ne hid, hfind] at hfind'
        injection hfind' with hfind'
        exact absurd hfind'.symm hne
  | delete uid id' r0 s hfind0 how =>
    constructor
    · intro id r r' hfind hfind' hne
      simp only [removeScan] at hfind'
      rw [hfind] at hfind'
      injection hfind' with hfind'
      exact absurd hfind'.symm hne
    · intro id r r' hfind hfind' hne
      simp only [removeScan] at hfind'
      by_cases hid : id = id'
      · subst hid
        rw [findRec_remove_self] at hfind'
        exact absurd hfind' (by simp)
      · rw [findRec_remove_ne hid, hfind] at hfind'
        injection hfind' with hfind'
        exact absurd hfind'.symm hne

/-! ## Claim C1 -/

/-- Terminal records are stable across any further execution: a terminal
`fridgeAnalyses` record is returned unchanged by every later lookup (there is
no fridge deletion), and a terminal `scannedRecipes` record is either returned
unchanged or has been deleted — no later read observes different payload
fields or a `processing` status under that id. -/
def TerminalStable (s s' : SysState) : Prop :=
  (∀ id r, findRec id s.fridge = some r → r.analysisStatus ≠ Status.processing →
    findRec id s'.fridge = some r) ∧
  (∀ id r, findRec id s.scans = some r → r.scanStatus ≠ Status.processing →
    findRec id s'.scans = some r ∨ findRec id s'.scans = none)

/-- Every single transition that rewrites a stored record moves it from
`processing` to `completed` or `failed`. -/
def StepShape (s : SysState) : Prop :=
  ∀ s₁, Step s s₁ →
    (∀ id r r', findRec id s.fridge = some r → findRec id s₁.fridge = some r' →
      r' ≠ r → r.analysisStatus = Status.processing ∧
        (r'.analysisStatus = Status.completed ∨ r'.analysisStatus = Status.failed)) ∧
    (∀ id r r', findRec id s.scans = some r → findRec id s₁.scans = some r' →
      r' ≠ r → r.scanStatus = Status.processing ∧
        (r'.scanStatus = Status.completed ∨ r'.scanStatus = Status.failed))

/-- C1.  In every reachable state, record statuses transition only
`processing → completed` and `processing → failed` under the system's
operations — submissions, the background tasks (acting through
`updateAnalysis` / `updateScannedRecipe`), deletion, and the read-only
queries — and once a record is `completed` or `failed` no subsequent
operation changes its status or payload fields, so no later read observes
`processing` for that record again (a deleted `scannedRecipes` record reads
back as absent, never as `processing`). -/
theorem statusMonotonic (s s' : SysState) (hreach : Reachable s)
    (hsteps : Relation.ReflTransGen Step s s') :
    TerminalStable s s' ∧ StepShape s := by
  have hinv : SysInv s := inv_reachable hreach
  obtain ⟨_, _, hf, hs⟩ := steps_stable hsteps hinv
  refine ⟨⟨hf, ?_⟩, ?_⟩
  · intro id r hfind hterm
    have hid : id < s.nextId := hinv.sbound _ (findRec_mem hfind)
    exact hs id r hid hfind hterm
  · intro s₁ hst
    exact step_shape hst hinv

/-- A concrete two-step execution: one fridge submission (user 7, image 3)
followed by its background task completing with ingredient list `["eggs"]`. -/
def exState : SysState :=
  applyFridgeUpdate 0
    (processImage (some "https://img") (.ok (some (.arr ["eggs"]))) (.ok (some (.arr []))))
    (insertFridge 7 3 initState)

theorem statusMonotonic_witness : TerminalStable exState exState ∧ StepShape exState :=
  statusMonotonic exState exState
    (Relation.ReflTransGen.tail
      (Relation.ReflTransGen.tail Relation.ReflTransGen.refl (Step.analyze 7 3 initState))
      (Step.runFridge 0 (some "https://img") (.ok (some (.arr ["eggs"])))
        (.ok (some (.arr []))) (insertFridge 7 3 initState) (by decide)))
    Relation.ReflTransGen.refl

/-! ## Claim C2 -/

/-- C2.  The fridge background task contains every failure: whatever the
resolved URL and inference outcomes — including the empty-ingredient case —
the single persisted update is either exactly the catch block's
`status=failed` record with empty ingredient and recipe lists, or a completed
record with a non-empty ingredient list.  Zero detected ingredients therefore
never yields a completed or partially completed record, and the task (a total
function here) never propagates an error to a caller. -/
theorem processImage_failure_containment (url : Option String)
    (ing : InfResult IngContent) (rec : InfResult RecContent) :
    processImage url ing rec = failedUpdate ∨
      ((processImage url ing rec).status = Status.completed ∧
        (processImage url ing rec).ingredients ≠ []) := by
  unfold processImage
  split
  · exact Or.inl rfl
  · split
    · exact Or.inl rfl
    · rename_i xs
      split
      · exact Or.inl rfl
      · rename_i hxs
        split
        · exact Or.inl rfl
        · exact Or.inr ⟨rfl, hxs⟩
        · exact Or.inr ⟨rfl, hxs⟩
        · exact Or.inl rfl
        · exact Or.inr ⟨rfl, hxs⟩

/-! ## Claim C5 -/

/-- C5.  When ingredient extraction succeeds with a non-empty list and the
recipe-generation response fails JSON parsing, the persisted record is
completed with exactly one deterministic fallback recipe: the fixed name,
the first `min(4, n)` detected ingredients, the four fixed generic steps, and
the fixed cooking time and difficulty. -/
theorem fridge_fallback_recipe_exact (u raw : String) (ing : InfResult IngContent)
    (xs : List String) (hx : extractIngredients ing = some xs) (hne : xs ≠ []) :
    processImage (some u) ing (.ok (some (.notJson raw))) =
      ⟨xs,
        [⟨"Simple Stir Fry", xs.take 4,
          ["Heat oil in pan", "Add ingredients", "Stir fry for 5-7 minutes",
            "Season and serve"],
          "15 minutes", "Easy"⟩],
        Status.completed⟩ := by
  simp [processImage, hx, hne, fallbackRecipe]

theorem fridge_fallback_recipe_exact_witness :
    processImage (some "u") (.ok (some (.arr ["eggs", "milk"])))
        (.ok (some (.notJson "not json"))) =
      ⟨["eggs", "milk"],
        [⟨"Simple Stir Fry", ["eggs", "milk"],
          ["Heat oil in pan", "Add ingredients", "Stir fry for 5-7 minutes",
            "Season and serve"],
          "15 minutes", "Easy"⟩],
        Status.completed⟩ :=
  fridge_fallback_recipe_exact "u" "not json" (.ok (some (.arr ["eggs", "milk"])))
    ["eggs", "milk"] rfl (by decide)

/-! ## Claim C3 -/

/-- Written from the claim's wording of the fallback ("stripping each line's
leading bullet/number markers"): like the source's strip, but a leading number
marker (digits, optionally followed by a dot, then whitespace) is removed as
well.  For comparison with `fridgeIngredientFallback` below. -/
def stripMarkerPerClaim (l : List Char) : List Char :=
  match l with
  | [] => []
  | c :: cs =>
    if c == '-' || c == '*' || c == '•' then cs.dropWhile Char.isWhitespace
    else if c.isDigit then
      (((c :: cs).dropWhile Char.isDigit).dropWhile (fun d => d == '.')).dropWhile
        Char.isWhitespace
    else c :: cs

/-- The fallback computation as the claim states it (number markers stripped
too, cap of 10). -/
def claimFridgeFallback (content : String) : List String :=
  (((splitLines content.data).map (fun l => trimL (stripMarkerPerClaim l))).filter
      (fun l => !l.isEmpty)).map String.mk |>.take 10

/-- C3 counterexample.  On the one-line response text `"1. eggs"`, the source
regex `/^[-*•]\s*/` strips only bullet markers, so the code keeps the number
marker and produces `["1. eggs"]`, while the claim's description (number
markers stripped) produces `["eggs"]` — the claimed equality fails. -/
theorem fridgeFallback_number_marker_cex :
    fridgeIngredientFallback "1. eggs" = ["1. eggs"] ∧
      claimFridgeFallback "1. eggs" = ["eggs"] ∧
      fridgeIngredientFallback "1. eggs" ≠ claimFridgeFallback "1. eggs" := by
  decide

/-- C3 amended.  For every response text that fails JSON parsing in the fridge
task, the fallback ingredient list is obtained by splitting the text into
lines, stripping each line's leading bullet marker (`-`, `*`, `•`) and the
whitespace after it (number markers are kept), trimming, discarding lines
empty after stripping, and taking at most the first 10 items — so whenever
that run of the task completes, the persisted ingredient list is exactly this
fallback list, which never exceeds 10 entries. -/
theorem fridgeFallback_amended (u raw : String) (rc : InfResult RecContent) :
    (fridgeIngredientFallback raw).length ≤ 10 ∧
      ((processImage (some u) (.ok (some (.notJson raw))) rc).status = Status.completed →
        (processImage (some u) (.ok (some (.notJson raw))) rc).ingredients =
          fridgeIngredientFallback raw) := by
  constructor
  · exact List.length_take_le _ _
  · intro hc
    by_cases hne : fridgeIngredientFallback raw = []
    · exfalso
      simp [processImage, extractIngredients, hne, failedUpdate] at hc
    · cases rc with
      | netErr =>
        exfalso
        simp [processImage, extractIngredients, hne, failedUpdate] at hc
      | ok c =>
        cases c with
        | none => simp [processImage, extractIngredients, hne]
        | some cc =>
          cases cc with
          | arr rs => simp [processImage, extractIngredients, hne]
          | invalid =>
            exfalso
            simp [processImage, extractIngredients, hne, failedUpdate] at hc
          | notJson r2 => simp [processImage, extractIngredients, hne]

theorem fridgeFallback_amended_witness :
    (processImage (some "u") (.ok (some (.notJson "- eggs\n- milk")))
        (.ok (some (.arr [])))).ingredients =
      fridgeIngredientFallback "- eggs\n- milk" ∧
    (fridgeIngredientFallback "- eggs\n- milk").length ≤ 10 := by
  have h := fridgeFallback_amended "u" "- eggs\n- milk" (.ok (some (.arr [])))
  exact ⟨h.2 (by decide), h.1⟩

/-! ## Claim C6 -/

/-- C6.  The recipe-scan background task contains every failure: whatever the
resolved URL and inference outcome, the single persisted update is either
exactly the catch block's minimal failure record (name "Scan Failed", empty
ingredient and instruction lists, status failed) — in particular whenever both
parsed lists come out empty, which the task turns into a thrown error — or a
completed record in which not both lists are empty. -/
theorem recipeScan_failure_containment (url : Option String)
    (resp : InfResult ScanContent) :
    processRecipeImage url resp = failedScanUpdate ∨
      ((processRecipeImage url resp).status = Status.completed ∧
        ¬((processRecipeImage url resp).recipeData.ingredients = [] ∧
          (processRecipeImage url resp).recipeData.instructions = [])) := by
  unfold processRecipeImage
  split
  · exact Or.inl rfl
  · split
    · exact Or.inl rfl
    · exact Or.inl rfl
    · exact Or.inl rfl
    · dsimp only
      split
      · exact Or.inl rfl
      · rename_i hcond
        exact Or.inr ⟨rfl, hcond⟩
    · dsimp only
      split
      · exact Or.inl rfl
      · rename_i hcond
        exact Or.inr ⟨rfl, hcond⟩

/-! ## Claim C4 -/

/-- The extracted (pre-cap) heuristic ingredient list of the scan fallback. -/
def scanIngredientsOf (raw : String) : List String :=
  ((scanLinesL raw).filter isIngredientLine).map (fun l => String.mk (stripIngMarkers l))

/-- The extracted (pre-cap) heuristic instruction list of the scan fallback. -/
def scanInstructionsOf (raw : String) : List String :=
  ((scanLinesL raw).filter isInstructionLine).map String.mk

theorem scanFallback_ing_eq {raw : String} (h : 0 < (scanIngredientsOf raw).length) :
    (scanFallback raw).ingredients = (scanIngredientsOf raw).take 15 := by
  simp only [scanIngredientsOf] at h ⊢
  unfold scanFallback
  dsimp only
  rw [if_pos h]

theorem scanFallback_ins_eq {raw : String} (h : 0 < (scanInstructionsOf raw).length) :
    (scanFallback raw).instructions = (scanInstructionsOf raw).take 10 := by
  simp only [scanInstructionsOf] at h ⊢
  unfold scanFallback
  dsimp only
  rw [if_pos h]

theorem scanFallback_ing_le (raw : String) :
    (scanFallback raw).ingredients.length ≤ 15 := by
  unfold scanFallback
  dsimp only
  split
  · exact List.length_take_le _ _
  · simp [defaultRecipeData]

theorem scanFallback_ins_le (raw : String) :
    (scanFallback raw).instructions.length ≤ 10 := by
  unfold scanFallback
  dsimp only
  split
  · exact List.length_take_le _ _
  · simp [defaultRecipeData]

theorem take_pos_ne_nil {α : Type} {l : List α} {n : Nat} (hn : 0 < n)
    (hl : 0 < l.length) : l.take n ≠ [] := by
  intro hcon
  have := congrArg List.length hcon
  rw [List.length_take] at this
  simp at this
  rcases this with h | h
  · exact Nat.lt_irrefl _ (h ▸ hn)
  · rw [h] at hl
    exact Nat.lt_irrefl _ hl

theorem scanResult_completed (u raw : String)
    (h : ¬((scanFallback raw).ingredients = [] ∧ (scanFallback raw).instructions = [])) :
    processRecipeImage (some u) (.ok (some (.notJson raw))) =
      ⟨scanFallback raw, Status.completed⟩ := by
  unfold processRecipeImage
  dsimp only
  rw [if_neg h]

/-- C4 counterexample.  On the response text `"2 cups flour"` (not valid
JSON), the heuristic strips the leading digit marker, so the persisted
ingredient list is `["cups flour"]` — the line `"2 cups flour"` itself, which
the claim says "must appear in the parsed ingredients", is not an element of
the persisted list. -/
theorem scan_two_cups_flour_cex :
    (processRecipeImage (some "u")
        (.ok (some (.notJson "2 cups flour")))).recipeData.ingredients =
      ["cups flour"] ∧
    "2 cups flour" ∉
      (processRecipeImage (some "u")
        (.ok (some (.notJson "2 cups flour")))).recipeData.ingredients := by
  decide

/-- C4 amended.  For every recipe-scan response text that fails JSON parsing:
if some line satisfies the ingredient matching rule (leading bullet/digit
marker on the trimmed line, or a case-insensitive unit keyword "cup"/"tbsp"/
"tsp") the persisted ingredient list is non-empty and capped at 15; if some
line satisfies the instruction matching rule (length > 20 and a verb from the
fixed keyword set) the persisted instruction list is non-empty and capped at
10; and a line `"2 cups flour"` is captured by the matching rule with its
leading digit marker stripped — `"cups flour"` appears in the extracted
ingredient list, of which the persisted list is the first 15 elements. -/
theorem scan_match_nonempty (u raw : String) :
    ((∃ l ∈ scanLinesL raw, isIngredientLine l = true) →
      (processRecipeImage (some u)
          (.ok (some (.notJson raw)))).recipeData.ingredients ≠ [] ∧
        (processRecipeImage (some u)
          (.ok (some (.notJson raw)))).recipeData.ingredients.length ≤ 15) ∧
    ((∃ l ∈ scanLinesL raw, isInstructionLine l = true) →
      (processRecipeImage (some u)
          (.ok (some (.notJson raw)))).recipeData.instructions ≠ [] ∧
        (processRecipeImage (some u)
          (.ok (some (.notJson raw)))).recipeData.instructions.length ≤ 10) ∧
    ("2 cups flour".data ∈ scanLinesL raw →
      "cups flour" ∈ scanIngredientsOf raw ∧
        (processRecipeImage (some u)
          (.ok (some (.notJson raw)))).recipeData.ingredients =
          (scanIngredientsOf raw).take 15) := by
  have hingNe : ∀ l ∈ scanLinesL raw, isIngredientLine l = true →
      (scanFallback raw).ingredients ≠ [] ∧
        (scanFallback raw).ingredients = (scanIngredientsOf raw).take 15 := by
    intro l hl hi
    have hmem : l ∈ (scanLinesL raw).filter isIngredientLine :=
      List.mem_filter.mpr ⟨hl, hi⟩
    have hpos : 0 < (scanIngredientsOf raw).length :=
      List.length_pos.mpr (List.ne_nil_of_mem (List.mem_map_of_mem _ hmem))
    have heq := scanFallback_ing_eq hpos
    exact ⟨heq ▸ take_pos_ne_nil (by decide) hpos, heq⟩
  have hinsNe : ∀ l ∈ scanLinesL raw, isInstructionLine l = true →
      (scanFallback raw).instructions ≠ [] ∧
        (scanFallback raw).instructions = (scanInstructionsOf raw).take 10 := by
    intro l hl hi
    have hmem : l ∈ (scanLinesL raw).filter isInstructionLine :=
      List.mem_filter.mpr ⟨hl, hi⟩
    have hpos : 0 < (scanInstructionsOf raw).length :=
      List.length_pos.mpr (List.ne_nil_of_mem (List.mem_map_of_mem _ hmem))
    have heq := scanFallback_ins_eq hpos
    exact ⟨heq ▸ take_pos_ne_nil (by decide) hpos, heq⟩
  refine ⟨?_, ?_, ?_⟩
  · rintro ⟨l, hl, hi⟩
    obtain ⟨hne, heq⟩ := hingNe l hl hi
    have hres := scanResult_completed u raw (fun hc => hne hc.1)
    rw [hres]
    exact ⟨hne, scanFallback_ing_le raw⟩
  · rintro ⟨l, hl, hi⟩
    obtain ⟨hne, heq⟩ := hinsNe l hl hi
    have hres := scanResult_completed u raw (fun hc => hne hc.2)
    rw [hres]
    exact ⟨hne, scanFallback_ins_le raw⟩
  · intro hline
    have hi : isIngredientLine "2 cups flour".data = true := by decide
    obtain ⟨hne, heq⟩ := hingNe _ hline hi
    have hres := scanResult_completed u raw (fun hc => hne hc.1)
    constructor
    · have hmem : "2 cups flour".data ∈ (scanLinesL raw).filter isIngredientLine :=
        List.mem_filter.mpr ⟨hline, hi⟩
      have : String.mk (stripIngMarkers "2 cups flour".data) ∈ scanIngredientsOf raw :=
        List.mem_map_of_mem _ hmem
      have hstr : String.mk (stripIngMarkers "2 cups flour".data) = "cups flour" := by
        decide
      rw [hstr] at this
      exact this
    · rw [hres]
      exact heq

theorem scan_match_nonempty_witness :
    (processRecipeImage (some "u")
        (.ok (some (.notJson
          "2 cups flour\nCook and stir everything patiently now")))).recipeData.ingredients
        ≠ [] ∧
    (processRecipeImage (some "u")
        (.ok (some (.notJson
          "2 cups flour\nCook and stir everything patiently now")))).recipeData.instructions
        ≠ [] ∧
    "cups flour" ∈ scanIngredientsOf "2 cups flour\nCook and stir everything patiently now" := by
  have h := scan_match_nonempty "u" "2 cups flour\nCook and stir everything patiently now"
  refine ⟨(h.1 ⟨"2 cups flour".data, by decide, by decide⟩).1,
    (h.2.1 ⟨"Cook and stir everything patiently now".data, by decide, by decide⟩).1,
    (h.2.2 (by decide)).1⟩

/-! ## Claim C7 -/

/-- Shared shape of the two bounded list queries: at most 20 results, every
result owned by the requester with a read-time-resolved URL and drawn from the
store, and results ordered newest-first (strictly descending ids, ids being
allocation-ordered). -/
theorem listQuery_spec {α : Type} (uid : Nat) (db : List (Nat × α)) (owner : α → Nat)
    (img : α → Nat) (resolve : Nat → Option String)
    (hs : db.Pairwise (fun a b => a.1 < b.1)) :
    (((db.filter (fun p => owner p.2 == uid)).reverse.take 20).map
        (fun p => (p, resolve (img p.2)))).length ≤ 20 ∧
    (∀ e ∈ ((db.filter (fun p => owner p.2 == uid)).reverse.take 20).map
        (fun p => (p, resolve (img p.2))),
      owner e.1.2 = uid ∧ e.2 = resolve (img e.1.2) ∧ e.1 ∈ db) ∧
    (((db.filter (fun p => owner p.2 == uid)).reverse.take 20).map
        (fun p => (p, resolve (img p.2)))).Pairwise (fun a b => b.1.1 < a.1.1) := by
  refine ⟨?_, ?_, ?_⟩
  · rw [List.length_map]
    exact List.length_take_le _ _
  · intro e he
    obtain ⟨p, hp, rfl⟩ := List.mem_map.mp he
    have hp1 : p ∈ (db.filter (fun p => owner p.2 == uid)).reverse :=
      List.mem_of_mem_take hp
    have hp2 := List.mem_filter.mp (List.mem_reverse.mp hp1)
    exact ⟨by simpa using hp2.2, rfl, hp2.1⟩
  · have h1 : (db.filter (fun p => owner p.2 == uid)).Pairwise (fun a b => a.1 < b.1) :=
      hs.filter _
    have h2 : ((db.filter (fun p => owner p.2 == uid)).reverse).Pairwise
        (fun a b => b.1 < a.1) := List.pairwise_reverse.mpr h1
    have h3 : (((db.filter (fun p => owner p.2 == uid)).reverse).take 20).Pairwise
        (fun a b => b.1 < a.1) := h2.sublist (List.take_sublist _ _)
    exact List.pairwise_map.mpr h3

/-- C7.  For every authenticated user: point lookups return the same plain
null both when the record is absent and when it is owned by another user; the
list queries return only the caller's records, newest first, at most 20, each
annotated with a display URL resolved from its image handle at read time. -/
theorem query_isolation_order (uid : Nat) (fdb : List (Nat × FridgeRecord))
    (sdb : List (Nat × ScanRecord)) (resolve : Nat → Option String)
    (hfs : fdb.Pairwise (fun a b => a.1 < b.1))
    (hss : sdb.Pairwise (fun a b => a.1 < b.1)) :
    (∀ id, findRec id fdb = none →
      getAnalysis (some uid) id fdb resolve = .ok none) ∧
    (∀ id r, findRec id fdb = some r → r.userId ≠ uid →
      getAnalysis (some uid) id fdb resolve = .ok none) ∧
    (∀ id, findRec id sdb = none →
      getScannedRecipe (some uid) id sdb resolve = .ok none) ∧
    (∀ id r, findRec id sdb = some r → r.userId ≠ uid →
      getScannedRecipe (some uid) id sdb resolve = .ok none) ∧
    (∃ out, getUserAnalyses (some uid) fdb resolve = .ok out ∧
      out.length ≤ 20 ∧
      (∀ e ∈ out, e.1.2.userId = uid ∧ e.2 = resolve e.1.2.imageId ∧ e.1 ∈ fdb) ∧
      out.Pairwise (fun a b => b.1.1 < a.1.1)) ∧
    (∃ out, getUserRecipes (some uid) sdb resolve = .ok out ∧
      out.length ≤ 20 ∧
      (∀ e ∈ out, e.1.2.userId = uid ∧ e.2 = resolve e.1.2.imageId ∧ e.1 ∈ sdb) ∧
      out.Pairwise (fun a b => b.1.1 < a.1.1)) := by
  refine ⟨?_, ?_, ?_, ?_, ?_, ?_⟩
  · intro id h
    simp [getAnalysis, h]
  · intro id r h hne
    simp [getAnalysis, h, hne]
  · intro id h
    simp [getScannedRecipe, h]
  · intro id r h hne
    simp [getScannedRecipe, h, hne]
  · exact ⟨_, rfl, listQuery_spec uid fdb (fun r => r.userId) (fun r => r.imageId)
      resolve hfs⟩
  · exact ⟨_, rfl, listQuery_spec uid sdb (fun r => r.userId) (fun r => r.imageId)
      resolve hss⟩

/-- A small concrete fridge store: record 0 owned by user 1 (completed),
record 1 owned by user 2 (processing). -/
def exFdb : List (Nat × FridgeRecord) :=
  [(0, ⟨1, 30, ["eggs"], [], .completed⟩), (1, ⟨2, 31, [], [], .processing⟩)]

/-- A small concrete scan store: record 0 owned by user 1, record 1 owned by
user 2. -/
def exSdb : List (Nat × ScanRecord) :=
  [(0, ⟨1, 40, "Pasta", ["pasta"], ["Boil the pasta"], none, none, none, none, .completed⟩),
   (1, ⟨2, 41, "Cake", ["flour"], ["Bake it well"], none, none, none, none, .completed⟩)]

/-- A concrete read-time URL resolver. -/
def exResolve : Nat → Option String := fun _ => some "https://files.example/img"

theorem query_isolation_order_witness :
    getAnalysis (some 1) 5 exFdb exResolve = .ok none ∧
    getAnalysis (some 1) 1 exFdb exResolve = .ok none ∧
    (∃ out, getUserAnalyses (some 1) exFdb exResolve = .ok out ∧
      out.length ≤ 20 ∧
      (∀ e ∈ out, e.1.2.userId = 1 ∧ e.2 = exResolve e.1.2.imageId ∧ e.1 ∈ exFdb) ∧
      out.Pairwise (fun a b => b.1.1 < a.1.1)) := by
  have h := query_isolation_order 1 exFdb exSdb exResolve (by decide) (by decide)
  exact ⟨h.1 5 (by decide), h.2.1 1 ⟨2, 31, [], [], .processing⟩ (by decide) (by decide),
    h.2.2.2.2.1⟩

/-! ## Claim C8 -/

/-- C8.  `deleteRecipe`: a missing or non-owned id fails with the
authorization error and, the transaction aborting, the store is unchanged (the
error result carries no store mutation); an owned id is removed, after which
its lookup is absent while every other id reads exactly as before. -/
theorem deleteRecipe_ownership (uid id : Nat) (db : List (Nat × ScanRecord)) :
    (findRec id db = none →
      deleteRecipe (some uid) id db = .error "Recipe not found or not authorized") ∧
    (∀ r, findRec id db = some r → r.userId ≠ uid →
      deleteRecipe (some uid) id db = .error "Recipe not found or not authorized") ∧
    (∀ r, findRec id db = some r → r.userId = uid →
      deleteRecipe (some uid) id db = .ok (removeRec id db) ∧
        findRec id (removeRec id db) = none ∧
        (∀ j, j ≠ id → findRec j (removeRec id db) = findRec j db)) := by
  refine ⟨?_, ?_, ?_⟩
  · intro h
    simp [deleteRecipe, h]
  · intro r h hne
    simp [deleteRecipe, h, hne]
  · intro r h hyes
    refine ⟨by simp [deleteRecipe, h, hyes], findRec_remove_self, ?_⟩
    intro j hj
    exact findRec_remove_ne hj

theorem deleteRecipe_ownership_witness :
    deleteRecipe (some 1) 7 exSdb = .error "Recipe not found or not authorized" ∧
    deleteRecipe (some 1) 1 exSdb = .error "Recipe not found or not authorized" ∧
    deleteRecipe (some 1) 0 exSdb = .ok (removeRec 0 exSdb) ∧
    findRec 0 (removeRec 0 exSdb) = none := by
  have h7 := deleteRecipe_ownership 1 7 exSdb
  have h1 := deleteRecipe_ownership 1 1 exSdb
  have h0 := deleteRecipe_ownership 1 0 exSdb
  refine ⟨h7.1 (by decide), ?_, ?_, ?_⟩
  · exact h1.2.1 ⟨2, 41, "Cake", ["flour"], ["Bake it well"], none, none, none, none,
      .completed⟩ (by decide) (by decide)
  · exact (h0.2.2 ⟨1, 40, "Pasta", ["pasta"], ["Boil the pasta"], none, none, none, none,
      .completed⟩ (by decide) (by decide)).1
  · exact (h0.2.2 ⟨1, 40, "Pasta", ["pasta"], ["Boil the pasta"], none, none, none, none,
      .completed⟩ (by decide) (by decide)).2.1

/-! ## Claim C9 -/

/-- C9 counterexample.  With the identity absent, the query entry points do
not raise an authentication error: `getAnalysis` returns a successful null and
`getUserAnalyses` a successful empty list (`.ok`, not `.error`), so "raises an
authentication error, surfaced to the caller as a rejected operation" fails
for them. -/
theorem query_auth_no_raise_cex :
    getAnalysis none 0 [] (fun _ => none) = Except.ok none ∧
      getUserAnalyses none [] (fun _ => none) = Except.ok [] ∧
      getScannedRecipe none 0 [] (fun _ => none) = Except.ok none ∧
      getUserRecipes none [] (fun _ => none) = Except.ok [] :=
  ⟨rfl, rfl, rfl, rfl⟩

/-- C9 amended.  When the current identity is absent, every entry point
rejects synchronously before any persistence or side effect: the four
mutations (`generateUploadUrl`, `analyzeImage`, `scanRecipe`, `deleteRecipe`)
raise the authentication error — their error result carries no inserted
record, no scheduled task and no deletion — while the four queries
(`getAnalysis`, `getUserAnalyses`, `getScannedRecipe`, `getUserRecipes`)
reject by returning the empty result (null / empty list) without raising. -/
theorem auth_rejection (sid id : Nat) (s : SysState)
    (fdb : List (Nat × FridgeRecord)) (sdb : List (Nat × ScanRecord))
    (resolve : Nat → Option String) :
    generateUploadUrl none = .error "Not authenticated" ∧
    analyzeImage none sid s = .error "Not authenticated" ∧
    scanRecipe none sid s = .error "Not authenticated" ∧
    deleteRecipe none id sdb = .error "Not authenticated" ∧
    getAnalysis none id fdb resolve = .ok none ∧
    getUserAnalyses none fdb resolve = .ok [] ∧
    getScannedRecipe none id sdb resolve = .ok none ∧
    getUserRecipes none sdb resolve = .ok [] :=
  ⟨rfl, rfl, rfl, rfl, rfl, rfl, rfl, rfl⟩

/-! ## Claim C10 -/

/-- C10.  In the recipe-scan heuristic fallback, the instruction verb match is
case-sensitive while the ingredient unit-keyword match is case-insensitive: a
line whose action verbs occur only outside the exact lowercase forms is never
an instruction line — in particular "Cook the pasta until it is al dente."
(longer than 20 characters, verb only capitalized) is never extracted into any
fallback's instruction list — whereas any line containing "cup" (or "tbsp",
"tsp") in any letter case satisfies the ingredient rule. -/
theorem keyword_case_sensitivity :
    (∀ l : List Char,
      (containsL l "cook".data || containsL l "add".data || containsL l "mix".data ||
        containsL l "heat".data || containsL l "bake".data ||
        containsL l "stir".data) = false →
      isInstructionLine l = false) ∧
    (∀ l : List Char, containsL (lowerL l) "cup".data = true →
      isIngredientLine l = true) ∧
    isInstructionLine "Cook the pasta until it is al dente.".data = false ∧
    (∀ raw : String,
      "Cook the pasta until it is al dente." ∉ (scanFallback raw).instructions) ∧
    isIngredientLine "A Cup of sugar".data = true ∧
    isIngredientLine "some TBSP butter".data = true ∧
    isIngredientLine "one Tsp salt".data = true := by
  refine ⟨?_, ?_, by decide, ?_, by decide, by decide, by decide⟩
  · intro l h
    simp only [isInstructionLine, h, Bool.and_false]
  · intro l h
    simp [isIngredientLine, h]
  · intro raw hmem
    unfold scanFallback at hmem
    dsimp only at hmem
    split at hmem
    · have hmem' := List.mem_of_mem_take hmem
      obtain ⟨l, hl, hs⟩ := List.mem_map.mp hmem'
      have hinst : isInstructionLine l = true := (List.mem_filter.mp hl).2
      have hld : l = "Cook the pasta until it is al dente.".data :=
        congrArg String.data hs
      rw [hld] at hinst
      exact absurd hinst (by decide)
    · simp [defaultRecipeData] at hmem

theorem keyword_case_sensitivity_witness :
    isInstructionLine "Cook the pasta until it is al dente.".data = false ∧
    isIngredientLine "a Cup of milk".data = true := by
  have h := keyword_case_sensitivity
  exact ⟨h.1 _ (by decide), h.2.1 _ (by decide)⟩

theorem processImage_failure_containment_witness :
    processImage none (.ok (some (.arr ["eggs"]))) (.ok (some (.arr []))) = failedUpdate ∨
      ((processImage none (.ok (some (.arr ["eggs"])))
          (.ok (some (.arr [])))).status = Status.completed ∧
        (processImage none (.ok (some (.arr ["eggs"])))
          (.ok (some (.arr [])))).ingredients ≠ []) :=
  processImage_failure_containment none (.ok (some (.arr ["eggs"]))) (.ok (some (.arr [])))

theorem recipeScan_failure_containment_witness :
    processRecipeImage (some "u") (.ok none) = failedScanUpdate ∨
      ((processRecipeImage (some "u") (.ok none)).status = Status.completed ∧
        ¬((processRecipeImage (some "u") (.ok none)).recipeData.ingredients = [] ∧
          (processRecipeImage (some "u") (.ok none)).recipeData.instructions = [])) :=
  recipeScan_failure_containment (some "u") (.ok none)
